import Mathlib

/-
Verification of the incremental-backup core of backup.js.

The definitions below are a shallow embedding of the final revision of the
backup script (the revision documented by the repository README, with the
`--exclude` option).  JavaScript timestamps are modelled as `Option Int`:
`Date.parse` yields a millisecond count, or `NaN` for an unset or unparsable
input, and `NaN` is modelled as `none`.  Every numeric comparison against
`NaN` is false in JavaScript, which the `js*` comparison helpers reproduce.
The filesystem is modelled as a flat association list from absolute path to
file data; host-filesystem failures (permission errors and the like) are out
of scope, so the volume-lifecycle operations are modelled as total while the
transfer executor keeps its fallible operations in `Except`.
-/

set_option autoImplicit false

namespace BackupJs

/-- Timestamp value as produced by the JavaScript `Date.parse`: `none` models
`NaN` (unset or unparsable input), `some t` a finite millisecond count. -/
abbrev JsDate := Option Int

/-- JavaScript `>` on two `Date.parse` results: false whenever either side is
`NaN`. -/
def jsGT : JsDate → JsDate → Bool
  | some a, some b => a > b
  | _, _ => false

/-- JavaScript `===` on two `Date.parse` results: false whenever either side
is `NaN` (`NaN === NaN` is false). -/
def jsEqNum : JsDate → JsDate → Bool
  | some a, some b => a = b
  | _, _ => false

/-- JavaScript `<` on two `Date.parse` results: false whenever either side is
`NaN`. -/
def jsLT : JsDate → JsDate → Bool
  | some a, some b => a < b
  | _, _ => false

/-- JavaScript `>=` on two `Date.parse` results: false whenever either side is
`NaN`. -/
def jsGE : JsDate → JsDate → Bool
  | some a, some b => a ≥ b
  | _, _ => false

/-- Reason string `backupReasons.DEST_FILE_NOT_FOUND` from the script. -/
def DEST_FILE_NOT_FOUND : String := "Destination file not found"

/-- Reason string `backupReasons.SRC_FILE_NEWER` from the script. -/
def SRC_FILE_NEWER : String := "Source file is newer than destination file"

/-- One entry of a flattened file list, as built by `getFileTree` and
`flattenFileTree`.  The flattened lists contain only leaf files (directory
nodes are flattened away), so the `type` tag is omitted.   `lastModified`
holds the parsed timestamp `Date.parse(stats.mtime)`.  `reason` is absent
(`none`) until the diff engine assigns it. -/
structure FileRecord where
  path : String
  relativePath : String
  name : String
  lastModified : JsDate
  reason : Option String := none
deriving Repr, DecidableEq

/-- Function `findFileInList(file, fileList)`: first list entry whose
`relativePath` equals the probe's, `undefined` (here `none`) when there is no
match; the implicit `undefined` fall-through of the JavaScript loop is the
`none` of the empty-list case. -/
def findFileInList (file : FileRecord) : List FileRecord → Option FileRecord
  | [] => none
  | listFile :: rest =>
    if listFile.relativePath = file.relativePath then some listFile
    else findFileInList file rest

/-- Function `compareFilesByDate(fileA, fileB)`: `1`, `0`, `-1` after the three
numeric comparisons of the parsed timestamps; when all three comparisons are
false (which happens exactly when a timestamp is `NaN`) the JavaScript
function falls through and returns `undefined`, modelled as `none`. -/
def compareFilesByDate (fileA fileB : FileRecord) : Option Int :=
  let dateA := fileA.lastModified
  let dateB := fileB.lastModified
  if jsGT dateA dateB then some 1
  else if jsEqNum dateA dateB then some 0
  else if jsLT dateA dateB then some (-1)
  else none

/-- Loop body of `getPendingFilesFromLists`, with the `pendingFilesList`
accumulator made explicit: unmatched source files are pushed with reason
`DEST_FILE_NOT_FOUND`, matched ones only when `compareFilesByDate` returns
`1`, with reason `SRC_FILE_NEWER`. -/
def getPendingLoop (destinationList : List FileRecord) :
    List FileRecord → List FileRecord → List FileRecord
  | [], pendingFilesList => pendingFilesList
  | sourceFile :: rest, pendingFilesList =>
    match findFileInList sourceFile destinationList with
    | none =>
      getPendingLoop destinationList rest
        (pendingFilesList ++ [{ sourceFile with reason := some DEST_FILE_NOT_FOUND }])
    | some destinationClone =>
      if compareFilesByDate sourceFile destinationClone = some 1 then
        getPendingLoop destinationList rest
          (pendingFilesList ++ [{ sourceFile with reason := some SRC_FILE_NEWER }])
      else
        getPendingLoop destinationList rest pendingFilesList

/-- Function `getPendingFilesFromLists(sourceList, destinationList)`. -/
def getPendingFilesFromLists (sourceList destinationList : List FileRecord) :
    List FileRecord :=
  getPendingLoop destinationList sourceList []

/-- Contribution of a single source file to the pending list: the record the
loop body of `getPendingFilesFromLists` pushes for it, or `none` when the file
is skipped. -/
def pendingEntry (destinationList : List FileRecord) (sourceFile : FileRecord) :
    Option FileRecord :=
  match findFileInList sourceFile destinationList with
  | none => some { sourceFile with reason := some DEST_FILE_NOT_FOUND }
  | some destinationClone =>
    if compareFilesByDate sourceFile destinationClone = some 1 then
      some { sourceFile with reason := some SRC_FILE_NEWER }
    else none

/-- Erase the `reason` tag of a record, exposing the part of a pending entry
that comes unchanged from the source list. -/
def clearReason (r : FileRecord) : FileRecord := { r with reason := none }

/-- Function `filterListByMinDate(fileList, minDate)` of the final revision.
The `minDateParsed` argument is the value of `Date.parse(minDate)`; `none`
models the `NaN` of an unset or unparsable threshold, for which the function
returns the list unchanged (`isNaN` guard).  Otherwise it keeps the entries
whose parsed `lastModified` satisfies the JavaScript `>=` against the
threshold. -/
def filterListByMinDate (fileList : List FileRecord) (minDateParsed : JsDate) :
    List FileRecord :=
  match minDateParsed with
  | none => fileList
  | some d => fileList.filter (fun file => jsGE file.lastModified (some d))

/-- Token of the modelled JavaScript regular-expression subset: a literal
character (possibly written with a backslash escape), the any-character dot,
or the end-anchor dollar. -/
inductive RegexToken where
  | lit (c : Char)
  | dot
  | dollar
deriving Repr, DecidableEq

/-- Parse a pattern string of the modelled subset into tokens: `\c` is the
literal `c`, `.` matches any character, `$` anchors at the end, any other
character is a literal.  The empty pattern parses to no tokens. -/
def parseRegex : List Char → List RegexToken
  | [] => []
  | '\\' :: c :: rest => .lit c :: parseRegex rest
  | '\\' :: [] => []
  | '.' :: rest => .dot :: parseRegex rest
  | '$' :: rest => .dollar :: parseRegex rest
  | c :: rest => .lit c :: parseRegex rest

/-- Match a token sequence against a prefix of the character list; an empty
token sequence matches at every position. -/
def matchTokens : List RegexToken → List Char → Bool
  | [], _ => true
  | .dollar :: ts, [] => matchTokens ts []
  | .dollar :: _, _ :: _ => false
  | .lit c :: ts, x :: xs => c == x && matchTokens ts xs
  | .lit _ :: _, [] => false
  | .dot :: ts, _ :: xs => matchTokens ts xs
  | .dot :: _, [] => false

/-- Search semantics of `String.prototype.match`: the pattern may match at any
start position of the string. -/
def regexSearch (ts : List RegexToken) : List Char → Bool
  | [] => matchTokens ts []
  | c :: xs => matchTokens ts (c :: xs) || regexSearch ts xs

/-- Pattern string the constructor `new RegExp(regex, 'g')` compiles when
`regex` is the given configuration value: an absent value (`undefined`) and
the empty string both compile to the empty pattern, which matches every
string. -/
def jsRegExpSource : Option String → String
  | none => ""
  | some s => s

/-- Function `filterByRegex(fileList, regex)`: compiles `new RegExp(regex,
'g')` and keeps exactly the entries whose `name.match(filter)` is `null`,
that is whose name the pattern does not match anywhere. -/
def filterByRegex (fileList : List FileRecord) (regex : Option String) :
    List FileRecord :=
  let filt := parseRegex (jsRegExpSource regex).toList
  fileList.filter (fun file => !(regexSearch filt file.name.toList))

/-- Data of one file on the modelled filesystem: its contents and its
modification and access timestamps (millisecond counts). -/
structure FileData where
  content : String
  mtime : Int
  atime : Int
deriving Repr, DecidableEq

/-- Flat filesystem snapshot: association list from absolute path to file
data; lookups take the first binding for a path. -/
abbrev FsState := List (String × FileData)

/-- First binding of a path in a snapshot. -/
def fsLookup (p : String) : FsState → Option FileData
  | [] => none
  | (q, d) :: rest => if q = p then some d else fsLookup p rest

/-- Operation `fs.existsSync(p)`. -/
def existsSync (fs : FsState) (p : String) : Bool :=
  (fsLookup p fs).isSome

/-- Operation `fs.statSync(p)`: the file's data, or a thrown `ENOENT` error
for a missing path. -/
def statSync (fs : FsState) (p : String) : Except String FileData :=
  match fsLookup p fs with
  | some d => .ok d
  | none => .error "ENOENT"

/-- Operation `fs.unlinkSync(p)`: remove every binding of the path. -/
def unlinkSync : FsState → String → FsState
  | [], _ => []
  | (q, d) :: rest, p =>
    if q = p then unlinkSync rest p else (q, d) :: unlinkSync rest p

/-- Write a file: the path is rebound to the given data, replacing any
previous binding. -/
def writeFile (fs : FsState) (p : String) (d : FileData) : FsState :=
  (p, d) :: unlinkSync fs p

/-- Operation `fs.copySync(src, dst)` of fs-extra: copies the source file's
contents to the destination path, stamping the destination's timestamps with
the current time `now` (the script follows it with `utimesSync` precisely
because the copy does not preserve timestamps); throws for a missing
source. -/
def copySync (fs : FsState) (src dst : String) (now : Int) :
    Except String FsState :=
  match fsLookup src fs with
  | none => .error "ENOENT"
  | some d => .ok (writeFile fs dst { content := d.content, mtime := now, atime := now })

/-- Operation `fs.utimesSync(p, atime, mtime)`: reset the access and
modification timestamps of an existing file; throws for a missing path. -/
def utimesSync (fs : FsState) (p : String) (atime mtime : Int) :
    Except String FsState :=
  match fsLookup p fs with
  | none => .error "ENOENT"
  | some d => .ok (writeFile fs p { d with atime := atime, mtime := mtime })

/-- Body of the `performBackup` loop for one pending file: stat the source,
delete an already existing destination file first (counting the overwrite),
copy the contents, then stamp the destination with the source's access and
modification times. -/
def backupStep (root : String) (now : Int) (file : FileRecord) (fs : FsState)
    (overwriteCount : Nat) : Except String (FsState × Nat) :=
  match statSync fs file.path with
  | .error e => .error e
  | .ok stats =>
    let backupPath := root ++ "/" ++ file.relativePath
    let fs1 := if existsSync fs backupPath then unlinkSync fs backupPath else fs
    let cnt1 := if existsSync fs backupPath then overwriteCount + 1 else overwriteCount
    match copySync fs1 file.path backupPath now with
    | .error e => .error e
    | .ok fs2 =>
      match utimesSync fs2 backupPath stats.atime stats.mtime with
      | .error e => .error e
      | .ok fs3 => .ok (fs3, cnt1)

/-- The `performBackup` loop over the pending list, in list order, threading
the snapshot and the overwrite count. -/
def backupLoop (root : String) (now : Int) :
    List FileRecord → FsState → Nat → Except String (FsState × Nat)
  | [], fs, cnt => .ok (fs, cnt)
  | file :: rest, fs, cnt =>
    match backupStep root now file fs cnt with
    | .error e => .error e
    | .ok (fs', cnt') => backupLoop root now rest fs' cnt'

/-- Function `performBackup(fileList)`: an empty pending list is reported as
zero counts with no filesystem access; otherwise the loop runs over the list
in order and the final log line reports the list length and the overwrite
count, returned here as the pair of counts. -/
def performBackup (root : String) (now : Int) (fileList : List FileRecord)
    (fs : FsState) : Except String (FsState × Nat × Nat) :=
  if fileList.length < 1 then .ok (fs, 0, 0)
  else
    match backupLoop root now fileList fs 0 with
    | .error e => .error e
    | .ok (fs', overwriteCount) => .ok (fs', fileList.length, overwriteCount)

/-- Constant `DISK_SIGNATURE_FILE`. -/
def DISK_SIGNATURE_FILE : String := "backupjs.signature"

/-- Character-list test that the second list begins with the first. -/
def listStartsWith : List Char → List Char → Bool
  | [], _ => true
  | _ :: _, [] => false
  | c :: cs, x :: xs => c == x && listStartsWith cs xs

/-- A path lies under a directory when it extends the directory path followed
by the separator. -/
def pathUnder (dirPath p : String) : Bool :=
  listStartsWith (dirPath ++ "/").toList p.toList

/-- Function `diskIsValid(disk)`: the signature file exists at the volume
root. -/
def diskIsValid (fs : FsState) (disk : String) : Bool :=
  existsSync fs (disk ++ "/" ++ DISK_SIGNATURE_FILE)

/-- Operation `extfs.isEmptySync(disk)` in the flat model: no file lives under
the volume root. -/
def isEmptySync (fs : FsState) (disk : String) : Bool :=
  fs.all (fun e => !(pathUnder disk e.1))

/-- Function `cleanDir(dirPath)` in the flat model: the recursive walk deletes
every file under the directory (directories themselves may remain, and carry
no data here). -/
def cleanDir (fs : FsState) (dirPath : String) : FsState :=
  fs.filter (fun e => !(pathUnder dirPath e.1))

/-- Function `eraseDisk(diskRoot)`: `cleanDir` on the volume root (host
permission failures are out of scope of the model). -/
def eraseDisk (fs : FsState) (diskRoot : String) : FsState :=
  cleanDir fs diskRoot

/-- Content of the signature file written by `markDisk`; only its existence
is ever consulted. -/
def markContent (now : Int) : String :=
  "backup.js - disk cleared on " ++ toString now ++
    "\nDo not remove this file, it is used by backup.js to verify the disk"

/-- Function `markDisk(diskRoot)`: write the signature file at the volume
root (host permission failures are out of scope of the model). -/
def markDisk (fs : FsState) (diskRoot : String) (now : Int) : FsState :=
  writeFile fs (diskRoot ++ "/" ++ DISK_SIGNATURE_FILE)
    { content := markContent now, mtime := now, atime := now }

/-- Function `initDisk(disk)` together with `eraseIfNotEmpty`: on a volume
without signature, force-erase wipes unconditionally; otherwise a non-empty
volume asks the confirmation collaborator (`confirmed` is the boolean it
returns) and wipes only on confirmation; in every branch the signature is
written once the erase decision is resolved.  A volume with signature is left
untouched. -/
def initDisk (fs : FsState) (disk : String) (forceErase confirmed : Bool)
    (now : Int) : FsState :=
  if diskIsValid fs disk = false then
    if forceErase then markDisk (eraseDisk fs disk) disk now
    else
      let fs' :=
        if isEmptySync fs disk = false then
          if confirmed then eraseDisk fs disk else fs
        else fs
      markDisk fs' disk now
  else fs

/-- Sample source-side record for the concrete scenarios: `testFiles/a.txt`
with a given parsed modification time. -/
def recA (t : JsDate) : FileRecord :=
  { path := "testFiles/a.txt", relativePath := "a.txt", name := "a.txt",
    lastModified := t, reason := none }

/-- Sample record with no destination counterpart: `testFiles/b/c.txt`. -/
def recB : FileRecord :=
  { path := "testFiles/b/c.txt", relativePath := "b/c.txt", name := "c.txt",
    lastModified := some 200, reason := none }

/-- Sample record with an unparsable modification time. -/
def recNaN : FileRecord :=
  { path := "testFiles/n.txt", relativePath := "n.txt", name := "n.txt",
    lastModified := none, reason := none }

/-- Concrete filesystem snapshot for the transfer scenario: the source file
`testFiles/a.txt` (mtime 300) and a stale destination file `testDisk/a.txt`
(mtime 200). -/
def fsScenario : FsState :=
  [("testFiles/a.txt", { content := "new content", mtime := 300, atime := 111 }),
   ("testDisk/a.txt", { content := "old content", mtime := 200, atime := 100 })]

/-- Concrete snapshot of a destination volume that carries no signature file
but already holds a file: the unrecognized, non-empty volume of the erase
scenarios. -/
def fsDirty : FsState :=
  [("testDisk/old.txt", { content := "keep me", mtime := 50, atime := 50 })]

/-- The empty token sequence (the compiled empty pattern) matches every
string at position zero, so the search always succeeds. -/
theorem regexSearch_nil (s : List Char) : regexSearch [] s = true := by
  cases s <;> simp [regexSearch, matchTokens]

/-- NaN on the left makes the JavaScript strict comparison false. -/
theorem jsGT_none_left (x : JsDate) : jsGT none x = false := by
  cases x <;> rfl

/-- NaN on the right makes the JavaScript strict comparison false. -/
theorem jsGT_none_right (x : JsDate) : jsGT x none = false := by
  cases x <;> rfl

/-- NaN on the left makes the JavaScript equality false. -/
theorem jsEqNum_none_left (x : JsDate) : jsEqNum none x = false := by
  cases x <;> rfl

/-- NaN on the right makes the JavaScript equality false. -/
theorem jsEqNum_none_right (x : JsDate) : jsEqNum x none = false := by
  cases x <;> rfl

/-- NaN on the left makes the JavaScript strict comparison false. -/
theorem jsLT_none_left (x : JsDate) : jsLT none x = false := by
  cases x <;> rfl

/-- NaN on the right makes the JavaScript strict comparison false. -/
theorem jsLT_none_right (x : JsDate) : jsLT x none = false := by
  cases x <;> rfl

/-- The pending-list loop appends the per-file contributions to its
accumulator in enumeration order. -/
theorem getPendingLoop_eq (dst src acc : List FileRecord) :
    getPendingLoop dst src acc = acc ++ src.filterMap (pendingEntry dst) := by
  induction src generalizing acc with
  | nil => simp [getPendingLoop]
  | cons s rest ih =>
    cases hf : findFileInList s dst with
    | none => simp [getPendingLoop, pendingEntry, hf, ih, List.filterMap_cons]
    | some d =>
      by_cases hc : compareFilesByDate s d = some 1 <;>
        simp [getPendingLoop, pendingEntry, hf, hc, ih, List.filterMap_cons]

/-- Characterization of the diff engine: the pending list is the in-order
collection of the per-file contributions. -/
theorem getPending_eq (src dst : List FileRecord) :
    getPendingFilesFromLists src dst = src.filterMap (pendingEntry dst) := by
  simp [getPendingFilesFromLists, getPendingLoop_eq]

/-- The destination lookup depends only on the probe's relative path. -/
theorem findFileInList_congr {t s : FileRecord}
    (h : t.relativePath = s.relativePath) :
    ∀ dst : List FileRecord, findFileInList t dst = findFileInList s dst
  | [] => rfl
  | d :: rest => by
    simp [findFileInList, h, findFileInList_congr h rest]

/-- The timestamp comparison returns `1` exactly when the source's parsed
timestamp is strictly greater in the JavaScript sense. -/
theorem compare_eq_one_iff (a b : FileRecord) :
    compareFilesByDate a b = some 1 ↔
      jsGT a.lastModified b.lastModified = true := by
  unfold compareFilesByDate
  by_cases h1 : jsGT a.lastModified b.lastModified = true
  · simp [h1]
  · by_cases h2 : jsEqNum a.lastModified b.lastModified = true
    · simp [h1, h2]
    · by_cases h3 : jsLT a.lastModified b.lastModified = true <;>
        simp [h1, h2, h3]

/-- With an unparsable timestamp on either side every branch of the
comparison is false and the function returns `undefined`. -/
theorem compareFilesByDate_nan (a b : FileRecord)
    (h : a.lastModified = none ∨ b.lastModified = none) :
    compareFilesByDate a b = none := by
  unfold compareFilesByDate
  rcases h with h | h <;>
    simp [h, jsGT_none_left, jsGT_none_right, jsEqNum_none_left,
      jsEqNum_none_right, jsLT_none_left, jsLT_none_right]

/-- Lookup after unlinking: the unlinked path is gone, every other path is
untouched. -/
theorem fsLookup_unlinkSync (fs : FsState) (p q : String) :
    fsLookup p (unlinkSync fs q) = if p = q then none else fsLookup p fs := by
  induction fs with
  | nil => simp [unlinkSync, fsLookup]
  | cons e rest ih =>
    obtain ⟨r, d⟩ := e
    by_cases hrq : r = q <;> by_cases hrp : r = p <;> by_cases hpq : p = q <;>
      simp_all [unlinkSync, fsLookup]

/-- Lookup after a write: the written path has the new data, every other path
is untouched. -/
theorem fsLookup_writeFile (fs : FsState) (p q : String) (d : FileData) :
    fsLookup p (writeFile fs q d) = if p = q then some d else fsLookup p fs := by
  unfold writeFile
  by_cases hpq : p = q
  · subst hpq
    simp [fsLookup]
  · have hqp : ¬q = p := fun h => hpq h.symm
    simp [fsLookup, hqp, hpq, fsLookup_unlinkSync]

/-- A successful stat is exactly a successful lookup. -/
theorem statSync_eq_ok (fs : FsState) (p : String) (d : FileData) :
    statSync fs p = .ok d ↔ fsLookup p fs = some d := by
  unfold statSync
  cases h : fsLookup p fs <;> simp

/-- A path exists exactly when its lookup succeeds. -/
theorem existsSync_iff (fs : FsState) (p : String) :
    existsSync fs p = true ↔ ∃ d, fsLookup p fs = some d := by
  simp [existsSync, Option.isSome_iff_exists]

/-- Retagging a record's reason twice keeps only the second tag. -/
theorem clearReason_update (t : FileRecord) (x : Option String) :
    clearReason { t with reason := x } = clearReason t := rfl

/-- Mapping after a filterMap that only retags is a sublist of mapping the
original list: the filter keeps the enumeration order. -/
theorem filterMap_map_sublist {α β : Type} (f : α → Option α) (g : α → β)
    (hg : ∀ t r, f t = some r → g r = g t) :
    ∀ l : List α, ((l.filterMap f).map g).Sublist (l.map g)
  | [] => List.Sublist.slnil
  | t :: rest => by
    cases hf : f t with
    | none =>
      simpa [List.filterMap_cons, hf] using
        List.Sublist.cons (g t) (filterMap_map_sublist f g hg rest)
    | some r =>
      simpa [List.filterMap_cons, hf, hg t r hf] using
        List.Sublist.cons₂ (g t) (filterMap_map_sublist f g hg rest)

/-- Strict JavaScript comparison of a timestamp with itself is false. -/
theorem jsGT_irrefl (x : JsDate) : jsGT x x = false := by
  cases x <;> simp [jsGT]

/-- Two retagged records are equal exactly when the underlying fields and the
tags agree. -/
theorem tag_eq_iff (t s : FileRecord) (x y : Option String) :
    ({ t with reason := x } = { s with reason := y }) ↔
      (t.path = s.path ∧ t.relativePath = s.relativePath ∧ t.name = s.name ∧
        t.lastModified = s.lastModified ∧ x = y) := by
  cases t
  cases s
  simp [FileRecord.mk.injEq]

/-- C1 (code bug): with the "no pattern" sentinel — the configuration field
absent, so `new RegExp(undefined, 'g')`, or the blank answer, so `new
RegExp('', 'g')` — the compiled pattern is empty and matches every name, so
`filterByRegex` drops every entry and returns the empty list instead of the
unchanged input that the specification (and the script's own prompt text
"leave blank to include all") describe. -/
theorem filterByRegex_sentinel_drops_all (fileList : List FileRecord) :
    filterByRegex fileList none = [] ∧ filterByRegex fileList (some "") = [] := by
  have hparse : parseRegex (jsRegExpSource none).data = [] := rfl
  have hparse2 : parseRegex (jsRegExpSource (some "")).data = [] := rfl
  constructor <;> simp [filterByRegex, hparse, hparse2, regexSearch_nil]

/-- C2: with the "no threshold" sentinel (an unset or unparsable
`backupDate`, whose `Date.parse` is `NaN`) the date filter returns the
pending list unchanged. -/
theorem filterListByMinDate_sentinel_noop (fileList : List FileRecord) :
    filterListByMinDate fileList none = fileList := rfl

/-- C7: for parsable thresholds `t1 ≤ t2`, every entry the date filter keeps
at the higher threshold it also keeps at the lower one — raising the
threshold never enlarges the filtered set. -/
theorem filterListByMinDate_monotone (fileList : List FileRecord) (t1 t2 : Int)
    (h : t1 ≤ t2) :
    ∀ x ∈ filterListByMinDate fileList (some t2),
      x ∈ filterListByMinDate fileList (some t1) := by
  intro x hx
  simp only [filterListByMinDate, List.mem_filter] at hx ⊢
  refine ⟨hx.1, ?_⟩
  cases hlm : x.lastModified with
  | none =>
    have hfalse : jsGE none (some t2) = false := rfl
    rw [hlm, hfalse] at hx
    exact absurd hx.2 Bool.false_ne_true
  | some a =>
    have h2 := hx.2
    rw [hlm] at h2
    simp only [jsGE, decide_eq_true_eq, ge_iff_le] at h2 ⊢
    omega

/-- Witness for C7 at a concrete list and thresholds 100 ≤ 200. -/
theorem filterListByMinDate_monotone_witness :
    (100 : Int) ≤ 200 ∧
      recA (some 300) ∈ filterListByMinDate [recA (some 300)] (some 100) :=
  ⟨by decide,
    filterListByMinDate_monotone [recA (some 300)] 100 200 (by decide)
      (recA (some 300)) (by decide)⟩

/-- C3: a source entry matched at the destination by relative path is in the
pending list tagged SourceNewer exactly when its timestamp is strictly
greater than the destination's in the JavaScript sense, and equal timestamps
contribute no pending entry at all. -/
theorem pending_sourceNewer_iff (src dst : List FileRecord) (s d : FileRecord)
    (hs : s ∈ src) (hfind : findFileInList s dst = some d) :
    ({ s with reason := some SRC_FILE_NEWER } ∈ getPendingFilesFromLists src dst ↔
      jsGT s.lastModified d.lastModified = true)
    ∧ (s.lastModified = d.lastModified → pendingEntry dst s = none) := by
  constructor
  · rw [getPending_eq]
    constructor
    · intro hmem
      rw [List.mem_filterMap] at hmem
      obtain ⟨t, _, hpe⟩ := hmem
      unfold pendingEntry at hpe
      cases hft : findFileInList t dst with
      | none =>
        simp only [hft] at hpe
        have heq := Option.some.inj hpe
        rw [tag_eq_iff] at heq
        have : DEST_FILE_NOT_FOUND = SRC_FILE_NEWER :=
          Option.some.inj heq.2.2.2.2
        exact absurd this (by decide)
      | some d2 =>
        simp only [hft] at hpe
        by_cases hc : compareFilesByDate t d2 = some 1
        · rw [if_pos hc] at hpe
          have heq := Option.some.inj hpe
          rw [tag_eq_iff] at heq
          have hd2 : findFileInList s dst = some d2 := by
            rw [← findFileInList_congr heq.2.1 dst, hft]
          have hdd : d2 = d := Option.some.inj (hd2.symm.trans hfind)
          have hgt := (compare_eq_one_iff t d2).mp hc
          rw [heq.2.2.2.1, hdd] at hgt
          exact hgt
        · rw [if_neg hc] at hpe
          exact absurd hpe (by simp)
    · intro hgt
      rw [List.mem_filterMap]
      refine ⟨s, hs, ?_⟩
      unfold pendingEntry
      simp only [hfind]
      rw [if_pos ((compare_eq_one_iff s d).mpr hgt)]
  · intro heq
    unfold pendingEntry
    simp only [hfind]
    rw [if_neg]
    rw [compare_eq_one_iff, heq, jsGT_irrefl]
    simp

/-- Witness for C3: source `a.txt` with timestamp 300 against destination
`a.txt` with timestamp 200. -/
theorem pending_sourceNewer_iff_witness :
    (recA (some 300) ∈ [recA (some 300)]) ∧
    (findFileInList (recA (some 300)) [recA (some 200)] = some (recA (some 200))) ∧
    (({ recA (some 300) with reason := some SRC_FILE_NEWER } ∈
        getPendingFilesFromLists [recA (some 300)] [recA (some 200)] ↔
      jsGT (recA (some 300)).lastModified (recA (some 200)).lastModified = true)
    ∧ ((recA (some 300)).lastModified = (recA (some 200)).lastModified →
        pendingEntry [recA (some 200)] (recA (some 300)) = none)) :=
  ⟨by decide, by decide,
    pending_sourceNewer_iff [recA (some 300)] [recA (some 200)]
      (recA (some 300)) (recA (some 200)) (by decide) (by decide)⟩

/-- C4: a source entry with no destination entry of equal relative path is in
the pending list tagged NotFoundAtDestination, and the pending list, with the
attached reasons erased, is a sublist of the source list — the enumeration
order is preserved and nothing beyond the reason is changed. -/
theorem pending_notFound_and_order (src dst : List FileRecord) :
    (∀ s ∈ src, findFileInList s dst = none →
      { s with reason := some DEST_FILE_NOT_FOUND } ∈
        getPendingFilesFromLists src dst)
    ∧ ((getPendingFilesFromLists src dst).map clearReason).Sublist
        (src.map clearReason) := by
  constructor
  · intro s hs hfind
    rw [getPending_eq, List.mem_filterMap]
    refine ⟨s, hs, ?_⟩
    unfold pendingEntry
    simp only [hfind]
  · rw [getPending_eq]
    refine filterMap_map_sublist (pendingEntry dst) clearReason ?_ src
    intro t r hr
    unfold pendingEntry at hr
    cases hft : findFileInList t dst with
    | none =>
      simp only [hft] at hr
      rw [← Option.some.inj hr]
      exact clearReason_update t _
    | some d2 =>
      simp only [hft] at hr
      by_cases hc : compareFilesByDate t d2 = some 1
      · rw [if_pos hc] at hr
        rw [← Option.some.inj hr]
        exact clearReason_update t _
      · rw [if_neg hc] at hr
        exact absurd hr (by simp)

/-- Witness for C4: one source file `b/c.txt` and an empty destination. -/
theorem pending_notFound_and_order_witness :
    { recB with reason := some DEST_FILE_NOT_FOUND } ∈
      getPendingFilesFromLists [recB] [] :=
  (pending_notFound_and_order [recB] []).1 recB (by decide) (by decide)

/-- C10: a pair of records with an unparsable timestamp makes every branch of
the timestamp comparison false, so it returns `undefined`; and a matched
source entry with an unparsable timestamp on either side is silently dropped
from the pending list — removing it from the source list does not change the
diff engine's output. -/
theorem compare_nan_excluded :
    (∃ a b : FileRecord,
      a.lastModified = none ∧ compareFilesByDate a b = none)
    ∧ ∀ (src1 src2 dst : List FileRecord) (s d : FileRecord),
        findFileInList s dst = some d →
        (s.lastModified = none ∨ d.lastModified = none) →
        getPendingFilesFromLists (src1 ++ s :: src2) dst =
          getPendingFilesFromLists (src1 ++ src2) dst := by
  constructor
  · exact ⟨recNaN, recNaN, rfl, compareFilesByDate_nan recNaN recNaN (Or.inl rfl)⟩
  · intro src1 src2 dst s d hfind hnan
    have hpe : pendingEntry dst s = none := by
      unfold pendingEntry
      simp only [hfind]
      rw [if_neg]
      rw [compareFilesByDate_nan s d hnan]
      simp
    rw [getPending_eq, getPending_eq, List.filterMap_append,
      List.filterMap_append, List.filterMap_cons, hpe]

/-- Witness for C10: the NaN-timestamped file matched at the destination is
dropped. -/
theorem compare_nan_excluded_witness :
    getPendingFilesFromLists ([] ++ recNaN :: []) [recNaN] =
      getPendingFilesFromLists ([] ++ []) [recNaN] :=
  compare_nan_excluded.2 [] [] [recNaN] recNaN recNaN (by decide) (Or.inl rfl)

/-- C5: on an empty pending list the transfer executor touches no file,
reports zero transferred files and zero overwrites, and succeeds. -/
theorem performBackup_empty_report (root : String) (now : Int) (fs : FsState) :
    performBackup root now [] fs = .ok (fs, 0, 0) := rfl

/-- Computation of one transfer step when the source file exists and the
destination path differs from the source path: the step succeeds, the
destination ends up rewritten twice (by the copy, then by the timestamp
stamping), and the overwrite count grows exactly when the destination
already existed. -/
theorem backupStep_eq (root : String) (now : Int) (f : FileRecord)
    (fs : FsState) (cnt : Nat) (d : FileData)
    (hlook : fsLookup f.path fs = some d)
    (hfp : ¬ f.path = root ++ "/" ++ f.relativePath) :
    backupStep root now f fs cnt =
      .ok (writeFile (writeFile
            (if existsSync fs (root ++ "/" ++ f.relativePath) then
              unlinkSync fs (root ++ "/" ++ f.relativePath) else fs)
            (root ++ "/" ++ f.relativePath)
            { content := d.content, mtime := now, atime := now })
          (root ++ "/" ++ f.relativePath)
          { content := d.content, mtime := d.mtime, atime := d.atime },
        cnt + (if existsSync fs (root ++ "/" ++ f.relativePath) then 1 else 0)) := by
  have hstat : statSync fs f.path = .ok d := (statSync_eq_ok fs f.path d).mpr hlook
  by_cases hex : existsSync fs (root ++ "/" ++ f.relativePath) <;>
    simp [backupStep, hstat, hex, copySync, utimesSync, fsLookup_unlinkSync,
      fsLookup_writeFile, hfp, hlook]

/-- C6: the transfer executor works through the pending list in order —
running a concatenated list is running the first part and continuing on the
second from the state it left — and each step deletes an already existing
destination file first (incrementing the overwrite count), copies the source
contents and then sets the destination's access and modification timestamps
to the source's, leaving every other path untouched; in the concrete
scenario, transferring pending `a.txt` (source mtime 300) over an existing
destination `a.txt` leaves the destination with mtime 300 and the overwrite
count at 1. -/
theorem performBackup_step_effects :
    (∀ (root : String) (now : Int) (l1 l2 : List FileRecord) (fs : FsState)
        (cnt : Nat),
      backupLoop root now (l1 ++ l2) fs cnt =
        (backupLoop root now l1 fs cnt).bind fun p =>
          backupLoop root now l2 p.1 p.2)
    ∧ (∀ (root : String) (now : Int) (f : FileRecord) (fs : FsState) (cnt : Nat)
        (d : FileData),
        statSync fs f.path = .ok d →
        ¬ f.path = root ++ "/" ++ f.relativePath →
        ∃ fs', backupStep root now f fs cnt =
            .ok (fs', cnt +
              (if existsSync fs (root ++ "/" ++ f.relativePath) then 1 else 0))
          ∧ fsLookup (root ++ "/" ++ f.relativePath) fs' =
              some { content := d.content, mtime := d.mtime, atime := d.atime }
          ∧ ∀ p, ¬ p = root ++ "/" ++ f.relativePath →
              fsLookup p fs' = fsLookup p fs)
    ∧ (∃ fsFinal,
        performBackup "testDisk" 999
            [{ recA (some 300) with reason := some SRC_FILE_NEWER }] fsScenario
          = .ok (fsFinal, 1, 1)
        ∧ fsLookup "testDisk/a.txt" fsFinal =
            some { content := "new content", mtime := 300, atime := 111 }) := by
  refine ⟨?_, ?_, ?_⟩
  · intro root now l1 l2 fs cnt
    induction l1 generalizing fs cnt with
    | nil => simp [backupLoop, Except.bind]
    | cons f rest ih =>
      simp only [List.cons_append, backupLoop]
      cases hstep : backupStep root now f fs cnt with
      | error e => simp [Except.bind]
      | ok p =>
        obtain ⟨fs1, cnt1⟩ := p
        simp [Except.bind, ih]
  · intro root now f fs cnt d hstat hfp
    have hlook : fsLookup f.path fs = some d := (statSync_eq_ok fs f.path d).mp hstat
    refine ⟨_, backupStep_eq root now f fs cnt d hlook hfp, ?_, ?_⟩
    · rw [fsLookup_writeFile]
      simp
    · intro p hp
      rw [fsLookup_writeFile, if_neg hp, fsLookup_writeFile, if_neg hp]
      by_cases hex : existsSync fs (root ++ "/" ++ f.relativePath) <;>
        simp [hex, fsLookup_unlinkSync, hp]
  · exact ⟨_, rfl, rfl⟩

/-- Witness for C6 at the concrete scenario snapshot: the step hypotheses
hold for `testFiles/a.txt` and its destination. -/
theorem performBackup_step_effects_witness :
    ∃ fs', backupStep "testDisk" 999 (recA (some 300)) fsScenario 0 =
        .ok (fs', 0 +
          (if existsSync fsScenario ("testDisk" ++ "/" ++ (recA (some 300)).relativePath)
            then 1 else 0))
      ∧ fsLookup ("testDisk" ++ "/" ++ (recA (some 300)).relativePath) fs' =
          some { content := "new content", mtime := 300, atime := 111 }
      ∧ ∀ p, ¬ p = "testDisk" ++ "/" ++ (recA (some 300)).relativePath →
          fsLookup p fs' = fsLookup p fsScenario :=
  performBackup_step_effects.2.1 "testDisk" 999 (recA (some 300)) fsScenario 0
    { content := "new content", mtime := 300, atime := 111 } rfl (by decide)

/-- C8: with no signature file, a non-empty destination, force-erase off and
the confirmation answered negatively, the volume lifecycle manager deletes
nothing — every pre-existing file under the destination root is still there
with the same data. -/
theorem initDisk_decline_preserves (fs : FsState) (disk : String) (now : Int)
    (p : String) (d : FileData)
    (hvalid : diskIsValid fs disk = false)
    (hnonempty : isEmptySync fs disk = false)
    (hp : fsLookup p fs = some d) :
    fsLookup p (initDisk fs disk false false now) = some d := by
  have hsig : fsLookup (disk ++ "/" ++ DISK_SIGNATURE_FILE) fs = none := by
    unfold diskIsValid existsSync at hvalid
    cases h : fsLookup (disk ++ "/" ++ DISK_SIGNATURE_FILE) fs with
    | none => rfl
    | some d0 =>
      rw [h] at hvalid
      simp at hvalid
  have hpd : ¬ p = disk ++ "/" ++ DISK_SIGNATURE_FILE := by
    intro h
    rw [h, hsig] at hp
    exact Option.noConfusion hp
  simp [initDisk, hvalid, hnonempty, markDisk, fsLookup_writeFile, hpd, hp]

/-- Witness for C8: the unrecognized, non-empty volume keeps its file after
the declined erase. -/
theorem initDisk_decline_preserves_witness :
    diskIsValid fsDirty "testDisk" = false ∧
    isEmptySync fsDirty "testDisk" = false ∧
    fsLookup "testDisk/old.txt" (initDisk fsDirty "testDisk" false false 999) =
      some { content := "keep me", mtime := 50, atime := 50 } :=
  ⟨by decide, by decide,
    initDisk_decline_preserves fsDirty "testDisk" 999 "testDisk/old.txt"
      { content := "keep me", mtime := 50, atime := 50 } (by decide) (by decide) rfl⟩

/-- C9: on a volume without signature the manager writes the marker whatever
the erase decision turns out to be, so the volume validates afterwards and a
second run — with any flags and any confirmation — is a no-op. -/
theorem initDisk_marks_regardless (fs : FsState) (disk : String)
    (forceErase confirmed forceErase2 confirmed2 : Bool) (now now2 : Int)
    (hvalid : diskIsValid fs disk = false) :
    diskIsValid (initDisk fs disk forceErase confirmed now) disk = true
    ∧ initDisk (initDisk fs disk forceErase confirmed now) disk forceErase2
        confirmed2 now2 = initDisk fs disk forceErase confirmed now := by
  have hmark : ∀ fs0 : FsState,
      diskIsValid (markDisk fs0 disk now) disk = true := by
    intro fs0
    simp [diskIsValid, existsSync, markDisk, fsLookup_writeFile]
  have h1 : diskIsValid (initDisk fs disk forceErase confirmed now) disk = true := by
    cases forceErase <;> by_cases hne : isEmptySync fs disk = false <;>
      cases confirmed <;> simp [initDisk, hvalid, hne, hmark]
  refine ⟨h1, ?_⟩
  obtain ⟨fs2, hfs2⟩ : ∃ fs2, initDisk fs disk forceErase confirmed now = fs2 :=
    ⟨_, rfl⟩
  rw [hfs2] at h1 ⊢
  simp [initDisk, h1]

/-- Witness for C9 on the concrete dirty volume. -/
theorem initDisk_marks_regardless_witness :
    diskIsValid (initDisk fsDirty "testDisk" false false 7) "testDisk" = true
    ∧ initDisk (initDisk fsDirty "testDisk" false false 7) "testDisk" true true 8 =
        initDisk fsDirty "testDisk" false false 7 :=
  initDisk_marks_regardless fsDirty "testDisk" false false true true 7 8 (by decide)

end BackupJs
